import Mathlib

/-!
Verification of the offline-first bill-tracking core of the
`gracepackingai` repository: the local store (`getStoredBills` /
`saveBillsToStorage` over a single `localStorage` slot), the sync
reconciler (`fullSync` in the storage service), the duplicate detector
and the batch mutators (`handlePackSelected`, `applyGroupSettings`,
`createBill` in `App.tsx`).

The embedding is shallow: the `BillData` record mirrors the TypeScript
interface, the JavaScript `Map` used by the merge is an association
list with `Map.set` semantics (replace in place when the key exists,
append otherwise; JS `Map` keys are unique, and iteration follows
insertion order), the `localStorage` slot is an `Option (List BillData)`
(the JSON round trip of a plain-data record is treated as the identity,
and a failing `setItem` leaves the slot untouched, which is the Web
Storage write semantics), and each `Date.now()` reading is an explicit
`Nat` parameter.  Within one synchronous record construction or batch
the source takes its clock readings in a single uninterrupted step, so
they are modelled as a single instant `now`.
-/

namespace GracePacking

/-- Status enum from `types.ts` (`PackingStatus`). -/
inductive PackingStatus where
  | PENDING
  | PACKED
deriving DecidableEq, Repr

/-- The `BillData` interface from `types.ts`.  Optional fields
(`imageUrl?`, `colorTheme?`, `packedAt?`) are `Option`s, except
`imageUrl` which every creation path fills with a string (`'' `when
absent), so it is kept as a `String`. -/
structure BillData where
  id : String
  imageUrl : String
  customerName : String
  address : String
  invoiceNo : String
  billDate : String
  status : PackingStatus
  isDelivery : Bool
  hasCRN : Bool
  isEditedBill : Bool
  isAdditionalBill : Bool
  boxCount : Nat
  description : String
  colorTheme : Option String
  entryDate : String
  createdAt : Nat
  updatedAt : Nat
  packedAt : Option Nat
deriving DecidableEq, Repr

/-- A convenient concrete bill used when evaluating the definitions on
explicit inputs. -/
def mkBill (id invoiceNo : String) (createdAt updatedAt : Nat) : BillData :=
  { id := id
    imageUrl := ""
    customerName := ""
    address := ""
    invoiceNo := invoiceNo
    billDate := ""
    status := PackingStatus.PENDING
    isDelivery := false
    hasCRN := false
    isEditedBill := false
    isAdditionalBill := false
    boxCount := 0
    description := ""
    colorTheme := none
    entryDate := ""
    createdAt := createdAt
    updatedAt := updatedAt
    packedAt := none }

/-! ## Local Store (`storageService`: `getStoredBills`, `saveBillsToStorage`)

The store is the parsed content of the `localStorage` slot under
`STORAGE_KEY`; `none` models an absent (or unreadable) slot. -/

/-- `getStoredBills`: parse the slot, returning `[]` when it is absent
(or when parsing fails, which the source catches). -/
def getStoredBills (store : Option (List BillData)) : List BillData :=
  store.getD []

/-- `saveBillsToStorage`: `localStorage.setItem` either succeeds,
replacing the whole slot, or throws (e.g. quota exceeded), leaving the
slot untouched; the source catches the exception and raises a blocking
`alert`.  `writeOk` is the outcome of the underlying write; the second
component records whether the alert was shown. -/
def saveBillsToStorage (store : Option (List BillData)) (bills : List BillData)
    (writeOk : Bool) : Option (List BillData) × Bool :=
  if writeOk then (some bills, false) else (store, true)

/-! ## Merge map (`fullSync` step 2): a JS `Map<string, BillData>` -/

/-- The merge map, as its underlying entry list in insertion order. -/
abbrev MergeMap := List (String × BillData)

/-- `Map.get`. -/
def mapGet (m : MergeMap) (k : String) : Option BillData :=
  (m.find? (fun p => p.1 = k)).map Prod.snd

/-- `Map.set`: replace in place when the key is present (JS `Map` keys
are unique, so replacing the first occurrence is exact), append at the
end otherwise. -/
def mapSet : MergeMap → String → BillData → MergeMap
  | [], k, v => [(k, v)]
  | p :: rest, k, v => if p.1 = k then (k, v) :: rest else p :: mapSet rest k v

/-- The keys of the map, in insertion order. -/
def mapKeys (m : MergeMap) : List String := m.map Prod.fst

/-- `Map.values`, in insertion order. -/
def mapValues (m : MergeMap) : List BillData := m.map Prod.snd

/-- `localBills.forEach(b => mergedMap.set(b.id, b))`. -/
def seedLocal (m : MergeMap) : List BillData → MergeMap
  | [] => m
  | b :: rest => seedLocal (mapSet m b.id b) rest

/-- Body of the remote loop:
`if (!local || r.updatedAt > local.updatedAt) mergedMap.set(r.id, r)`. -/
def mergeStep (acc : MergeMap) (r : BillData) : MergeMap :=
  match mapGet acc r.id with
  | none => mapSet acc r.id r
  | some lcl => if lcl.updatedAt < r.updatedAt then mapSet acc r.id r else acc

/-- `remoteBills.forEach(r => ...)`. -/
def mergeRemote (m : MergeMap) : List BillData → MergeMap
  | [] => m
  | r :: rest => mergeRemote (mergeStep m r) rest

/-- One insertion step of the sort by `createdAt` descending. -/
def insertByCreated (b : BillData) : List BillData → List BillData
  | [] => [b]
  | x :: xs => if x.createdAt < b.createdAt then b :: x :: xs else x :: insertByCreated b xs

/-- `Array.from(mergedMap.values()).sort((a, b) => b.createdAt - a.createdAt)`,
modelled by an insertion sort with the same comparator; the claims below
use only that the result is a permutation of the input. -/
def sortByCreatedDesc (l : List BillData) : List BillData :=
  l.foldr insertByCreated []

/-- Steps 2–3 of `fullSync`: build the merge map from local then remote
bills and flatten it to the sorted merged list. -/
def fullSyncMerge (localBills remoteBills : List BillData) : List BillData :=
  sortByCreatedDesc (mapValues (mergeRemote (seedLocal [] localBills) remoteBills))

/-- The push test of `fullSync` step 4:
`const remote = remoteBills.find(r => r.id === bill.id);
 if (!remote || bill.updatedAt > remote.updatedAt) ...`. -/
def pushCondition (remoteBills : List BillData) (bill : BillData) : Bool :=
  match remoteBills.find? (fun r => r.id = bill.id) with
  | none => true
  | some remote => remote.updatedAt < bill.updatedAt

/-- The bills `fullSync` upserts to the remote, in loop order. -/
def pushedBills (merged remoteBills : List BillData) : List BillData :=
  merged.filter (pushCondition remoteBills)

/-- Observable outcome of one `fullSync` run: the returned list, the
local slot afterwards, and the bills pushed via `syncUpItem`/upsert. -/
structure SyncResult where
  result : List BillData
  store : Option (List BillData)
  pushed : List BillData
deriving DecidableEq, Repr

/-- `fullSync`: no-op when disconnected; on fetch failure the `catch`
returns the stored bills before anything was written; otherwise merge,
save locally (the save catches its own write failure) and push.
`connected` models `!!supabase`, `remoteFetch` the outcome of
`supabase.from('bills').select('*')` (`none` = error), and `writeOk`
the outcome of the underlying local write. -/
def fullSync (connected : Bool) (store : Option (List BillData))
    (remoteFetch : Option (List BillData)) (writeOk : Bool) : SyncResult :=
  if connected then
    match remoteFetch with
    | none => ⟨getStoredBills store, store, []⟩
    | some remoteBills =>
        let localBills := getStoredBills store
        let merged := fullSyncMerge localBills remoteBills
        ⟨merged, (saveBillsToStorage store merged writeOk).1, pushedBills merged remoteBills⟩
  else ⟨getStoredBills store, store, []⟩

/-! ## Duplicate detection (`App.tsx`, `handleAddBill`) -/

/-- JS `String.prototype.trim` on the character list: strip leading and
trailing whitespace. -/
def trimChars (l : List Char) : List Char :=
  ((l.dropWhile Char.isWhitespace).reverse.dropWhile Char.isWhitespace).reverse

/-- `invoiceNo.trim().toLowerCase()`, modelled character-wise (on the
ASCII invoice strings of interest JS and this model agree). -/
def normalizeInvoice (s : String) : String :=
  ⟨(trimChars s.data).map Char.toLower⟩

/-- Predicate of the scan:
`b.invoiceNo && b.invoiceNo.trim().toLowerCase() === normalizedNew`. -/
def invoiceMatches (normalizedNew : String) (b : BillData) : Bool :=
  b.invoiceNo ≠ "" ∧ normalizeInvoice b.invoiceNo = normalizedNew

/-- The duplicate check of `handleAddBill`: skipped when the extracted
invoice number is falsy (empty) or normalizes to the empty string;
otherwise the first store-order match is reported. -/
def findDuplicate (candidate : String) (bills : List BillData) : Option BillData :=
  if candidate = "" then none
  else
    let normalizedNew := normalizeInvoice candidate
    if normalizedNew = "" then none
    else bills.find? (invoiceMatches normalizedNew)

/-! ## Creation paths (`App.tsx`: `createBill`, `handleManualQuickAdd`) -/

/-- The fields the AI extraction (or the quick-add form) supplies. -/
structure ExtractedData where
  customerName : String
  address : String
  invoiceNo : String
  billDate : String

/-- `createBill`: builds the new record.  `extracted.x || ''` is the
identity on strings, `manualData?.boxCount || 0` is `getD 0`, and
`manualData?.description || ''` is `getD ""`.  Both `Date.now()`
readings of the synchronous record literal are the instant `now`. -/
def createBill (extracted : ExtractedData) (base64Image : Option String)
    (manualBoxCount : Option Nat) (manualDescription : Option String)
    (currentDate : String) (newId : String) (now : Nat) : BillData :=
  { id := newId
    imageUrl := base64Image.getD ""
    customerName := extracted.customerName
    address := extracted.address
    invoiceNo := extracted.invoiceNo
    billDate := extracted.billDate
    status := PackingStatus.PENDING
    isDelivery := false
    hasCRN := false
    isEditedBill := false
    isAdditionalBill := false
    boxCount := manualBoxCount.getD 0
    description := manualDescription.getD ""
    colorTheme := none
    entryDate := currentDate
    createdAt := now
    updatedAt := now
    packedAt := none }

/-- Input of the quick-add form. -/
structure QuickAddData where
  customerName : String
  invoiceNo : String
  boxCount : Nat
  description : String

/-- `handleManualQuickAdd`: delegates to `createBill` with an empty
address, `billDate = currentDate`, and the manual box count and
description. -/
def handleManualQuickAdd (data : QuickAddData) (currentDate : String)
    (newId : String) (now : Nat) : BillData :=
  createBill ⟨data.customerName, "", data.invoiceNo, currentDate⟩ none
    (some data.boxCount) (some data.description) currentDate newId now

/-! ## Batch mutators (`App.tsx`) -/

/-- `handlePackSelected`: map over all bills, stamping the selected ones
`PACKED` with `packedAt = updatedAt = now` (one `Date.now()` per batch). -/
def handlePackSelected (bills : List BillData) (sel : List String) (now : Nat) :
    List BillData :=
  bills.map (fun b =>
    if sel.contains b.id then
      { b with status := PackingStatus.PACKED, packedAt := some now, updatedAt := now }
    else b)

/-- `applyGroupSettings`: map over all bills, setting `description` and
`colorTheme` (`groupColorInput || undefined`) and stamping
`updatedAt = now` on the selected ones. -/
def applyGroupSettings (bills : List BillData) (sel : List String)
    (groupNameInput : String) (groupColorInput : String) (now : Nat) : List BillData :=
  bills.map (fun b =>
    if sel.contains b.id then
      { b with description := groupNameInput,
               colorTheme := if groupColorInput = "" then none else some groupColorInput,
               updatedAt := now }
    else b)

/-- The single-field edits the expanded bill card issues through
`handleChange(field, value)`: one constructor per call site (the text
inputs, the box counter, the color picker, and the four flag toggles). -/
inductive FieldEdit where
  | customerName (v : String)
  | invoiceNo (v : String)
  | billDate (v : String)
  | address (v : String)
  | boxCount (v : Nat)
  | colorTheme (v : String)
  | isDelivery (v : Bool)
  | hasCRN (v : Bool)
  | isAdditionalBill (v : Bool)
  | isEditedBill (v : Bool)
deriving DecidableEq, Repr

/-- `[field]: value` of the spread literal: set the one edited field. -/
def setField (b : BillData) : FieldEdit → BillData
  | .customerName v => { b with customerName := v }
  | .invoiceNo v => { b with invoiceNo := v }
  | .billDate v => { b with billDate := v }
  | .address v => { b with address := v }
  | .boxCount v => { b with boxCount := v }
  | .colorTheme v => { b with colorTheme := some v }
  | .isDelivery v => { b with isDelivery := v }
  | .hasCRN v => { b with hasCRN := v }
  | .isAdditionalBill v => { b with isAdditionalBill := v }
  | .isEditedBill v => { b with isEditedBill := v }

/-- `handleChange` of the bill card (the field-edit path):
`onChange({ ...bill, [field]: value, updatedAt: Date.now() })` — spread
the record, set the edited field, stamp `updatedAt` with the clock
reading. -/
def handleChange (b : BillData) (e : FieldEdit) (now : Nat) : BillData :=
  { setField b e with updatedAt := now }

/-! ## Claim C3: offline / fetch-failure paths of `fullSync` -/

/-- Claim C3: if the remote is not connected, or the remote fetch
fails, `fullSync` returns exactly the Local Store's current content,
leaves the store unchanged, and pushes nothing. -/
theorem fullSync_offline_noop (connected : Bool) (store : Option (List BillData))
    (remoteFetch : Option (List BillData)) (writeOk : Bool)
    (h : connected = false ∨ remoteFetch = none) :
    fullSync connected store remoteFetch writeOk =
      ⟨getStoredBills store, store, []⟩ := by
  rcases h with h | h
  · simp [fullSync, h]
  · cases connected <;> simp [fullSync, h]

/-- Witness for C3 at a concrete disconnected state and at a concrete
fetch failure. -/
theorem fullSync_offline_noop_witness :
    fullSync false (some [mkBill "1" "a" 5 7]) (some []) true =
        ⟨[mkBill "1" "a" 5 7], some [mkBill "1" "a" 5 7], []⟩ ∧
      fullSync true (some [mkBill "1" "a" 5 7]) none true =
        ⟨[mkBill "1" "a" 5 7], some [mkBill "1" "a" 5 7], []⟩ := by
  constructor
  · exact (fullSync_offline_noop false (some [mkBill "1" "a" 5 7]) (some []) true
      (Or.inl rfl)).trans (by rfl)
  · exact (fullSync_offline_noop true (some [mkBill "1" "a" 5 7]) none true
      (Or.inr rfl)).trans (by rfl)

/-! ## Claim C4: failed `replaceAll` leaves the store intact and alerts -/

/-- Claim C4: when the underlying write of `saveBillsToStorage` fails,
the store content afterwards equals the content before the attempt, and
the blocking alert is shown (the error is surfaced synchronously, not
silently swallowed). -/
theorem saveBills_write_failure (store : Option (List BillData)) (bills : List BillData) :
    getStoredBills (saveBillsToStorage store bills false).1 = getStoredBills store ∧
      (saveBillsToStorage store bills false).1 = store ∧
      (saveBillsToStorage store bills false).2 = true := by
  simp [saveBillsToStorage]

/-! ## Claim C7: every created record is PENDING with equal timestamps -/

/-- Claim C7: both creation paths produce a record with
`status = PENDING`, `createdAt = updatedAt = now`, and no `packedAt`. -/
theorem createBill_fresh (extracted : ExtractedData) (base64Image : Option String)
    (manualBoxCount : Option Nat) (manualDescription : Option String)
    (currentDate : String) (newId : String) (now : Nat) (data : QuickAddData) :
    ((createBill extracted base64Image manualBoxCount manualDescription
        currentDate newId now).status = PackingStatus.PENDING ∧
      (createBill extracted base64Image manualBoxCount manualDescription
        currentDate newId now).createdAt = now ∧
      (createBill extracted base64Image manualBoxCount manualDescription
        currentDate newId now).updatedAt = now ∧
      (createBill extracted base64Image manualBoxCount manualDescription
        currentDate newId now).packedAt = none) ∧
    ((handleManualQuickAdd data currentDate newId now).status = PackingStatus.PENDING ∧
      (handleManualQuickAdd data currentDate newId now).createdAt = now ∧
      (handleManualQuickAdd data currentDate newId now).updatedAt = now ∧
      (handleManualQuickAdd data currentDate newId now).packedAt = none) := by
  simp [createBill, handleManualQuickAdd]

/-! ## Claim C9: `replaceAll` / `list` round trip -/

/-- Claim C9: writing a list with a successful `saveBillsToStorage` and
reading it back with `getStoredBills` returns the written list, hence a
collection equal to it as a set of records (a fortiori keyed by id). -/
theorem saveBills_roundTrip (store : Option (List BillData)) (bills : List BillData) :
    getStoredBills (saveBillsToStorage store bills true).1 = bills ∧
      ∀ b : BillData,
        b ∈ getStoredBills (saveBillsToStorage store bills true).1 ↔ b ∈ bills := by
  simp [saveBillsToStorage, getStoredBills]

/-! ## Merge-map lemmas -/

/-- Well-formedness of the merge map: every entry is keyed by its
record's id (both loops only ever call `set(b.id, b)`). -/
def MapWF (m : MergeMap) : Prop := ∀ p ∈ m, p.1 = p.2.id

theorem mapWF_nil : MapWF [] := by intro p hp; cases hp

theorem mapKeys_cons (p : String × BillData) (m : MergeMap) :
    mapKeys (p :: m) = p.1 :: mapKeys m := rfl

theorem mapGet_cons (p : String × BillData) (m : MergeMap) (k : String) :
    mapGet (p :: m) k = if p.1 = k then some p.2 else mapGet m k := by
  by_cases h : p.1 = k <;> simp [mapGet, List.find?_cons, h]

theorem mapGet_mapSet_self (m : MergeMap) (k : String) (v : BillData) :
    mapGet (mapSet m k v) k = some v := by
  induction m with
  | nil => simp [mapSet, mapGet]
  | cons p rest ih =>
      by_cases h : p.1 = k
      · simp [mapSet, h, mapGet_cons]
      · simp [mapSet, h, mapGet_cons, ih]

theorem mapGet_mapSet_ne (m : MergeMap) (k k' : String) (v : BillData) (h : k' ≠ k) :
    mapGet (mapSet m k v) k' = mapGet m k' := by
  have hne : k ≠ k' := fun he => h he.symm
  induction m with
  | nil => simp [mapSet, mapGet_cons, hne, mapGet]
  | cons p rest ih =>
      by_cases hp : p.1 = k
      · rw [mapSet, if_pos hp, mapGet_cons, mapGet_cons, hp]
        simp [hne]
      · rw [mapSet, if_neg hp, mapGet_cons, mapGet_cons, ih]

theorem mem_keys_mapSet (m : MergeMap) (k a : String) (v : BillData) :
    a ∈ mapKeys (mapSet m k v) ↔ a = k ∨ a ∈ mapKeys m := by
  induction m with
  | nil => simp [mapSet, mapKeys]
  | cons p rest ih =>
      by_cases hp : p.1 = k
      · rw [mapSet, if_pos hp, mapKeys_cons, mapKeys_cons, hp]
        simp only [List.mem_cons]
        tauto
      · rw [mapSet, if_neg hp, mapKeys_cons, mapKeys_cons]
        simp only [List.mem_cons, ih]
        tauto

theorem nodupKeys_mapSet (m : MergeMap) (k : String) (v : BillData)
    (h : (mapKeys m).Nodup) : (mapKeys (mapSet m k v)).Nodup := by
  induction m with
  | nil => simp [mapSet, mapKeys]
  | cons p rest ih =>
      rw [mapKeys_cons, List.nodup_cons] at h
      by_cases hp : p.1 = k
      · rw [mapSet, if_pos hp, mapKeys_cons]
        exact List.nodup_cons.mpr ⟨hp ▸ h.1, h.2⟩
      · rw [mapSet, if_neg hp, mapKeys_cons]
        rw [List.nodup_cons]
        refine ⟨?_, ih h.2⟩
        intro hmem
        rcases (mem_keys_mapSet rest k p.1 v).mp hmem with h1 | h1
        · exact hp h1
        · exact h.1 h1

theorem mapWF_mapSet (m : MergeMap) (v : BillData) (h : MapWF m) :
    MapWF (mapSet m v.id v) := by
  induction m with
  | nil =>
      intro p hp
      simp [mapSet] at hp
      simp [hp]
  | cons q rest ih =>
      by_cases hq : q.1 = v.id
      · rw [mapSet, if_pos hq]
        intro p hp
        rcases List.mem_cons.mp hp with h1 | h1
        · simp [h1]
        · exact h p (List.mem_cons_of_mem q h1)
      · rw [mapSet, if_neg hq]
        intro p hp
        rcases List.mem_cons.mp hp with h1 | h1
        · exact h p (by rw [h1]; exact List.mem_cons_self q rest)
        · exact ih (fun p2 hp2 => h p2 (List.mem_cons_of_mem q hp2)) p h1

theorem mapGet_eq_some_of_mem (m : MergeMap) (k : String) (v : BillData)
    (hn : (mapKeys m).Nodup) (hm : (k, v) ∈ m) : mapGet m k = some v := by
  induction m with
  | nil => cases hm
  | cons p rest ih =>
      rw [mapKeys_cons, List.nodup_cons] at hn
      rcases List.mem_cons.mp hm with h1 | h1
      · rw [← h1, mapGet_cons]
        simp
      · have hk : k ∈ mapKeys rest := by
          have := List.mem_map_of_mem Prod.fst h1
          simpa [mapKeys] using this
        have hne : p.1 ≠ k := fun he => hn.1 (by rw [he]; exact hk)
        rw [mapGet_cons, if_neg hne]
        exact ih hn.2 h1

theorem mem_of_mapGet_eq_some (m : MergeMap) (k : String) (v : BillData)
    (h : mapGet m k = some v) : (k, v) ∈ m := by
  unfold mapGet at h
  cases hfind : m.find? (fun p => p.1 = k) with
  | none => rw [hfind] at h; cases h
  | some p0 =>
      rw [hfind] at h
      have hp0 : p0 ∈ m := List.mem_of_find?_eq_some hfind
      have hk : p0.1 = k := by
        have := List.find?_some hfind
        simpa using this
      have hv : p0.2 = v := by simpa using h
      have hpe : p0 = (k, v) := Prod.ext hk hv
      exact hpe ▸ hp0

theorem mem_mapValues (m : MergeMap) (b : BillData) :
    b ∈ mapValues m ↔ ∃ k, (k, b) ∈ m := by
  unfold mapValues
  rw [List.mem_map]
  constructor
  · rintro ⟨⟨k, v⟩, hmem, hv⟩
    refine ⟨k, ?_⟩
    cases hv
    exact hmem
  · rintro ⟨k, hmem⟩
    exact ⟨(k, b), hmem, rfl⟩

theorem mem_keys_of_mapGet_eq_some (m : MergeMap) (k : String) (v : BillData)
    (h : mapGet m k = some v) : k ∈ mapKeys m := by
  have hm := mem_of_mapGet_eq_some m k v h
  have := List.mem_map_of_mem Prod.fst hm
  simpa [mapKeys] using this

/-! ## Seeding lemmas (`localBills.forEach`) -/

theorem mapGet_seedLocal_of_not_mem (localBills : List BillData) (m : MergeMap)
    (k : String) (h : k ∉ localBills.map BillData.id) :
    mapGet (seedLocal m localBills) k = mapGet m k := by
  induction localBills generalizing m with
  | nil => rfl
  | cons b rest ih =>
      rw [List.map_cons] at h
      have h1 : k ≠ b.id := fun he => h (by rw [he]; exact List.mem_cons_self _ _)
      have h2 : k ∉ rest.map BillData.id := fun hmem => h (List.mem_cons_of_mem _ hmem)
      rw [seedLocal, ih _ h2]
      exact mapGet_mapSet_ne m b.id k b h1

theorem mapGet_seedLocal_of_mem (localBills : List BillData) (m : MergeMap)
    (k : String) (l : BillData) (hn : (localBills.map BillData.id).Nodup)
    (hl : l ∈ localBills) (hk : l.id = k) :
    mapGet (seedLocal m localBills) k = some l := by
  induction localBills generalizing m with
  | nil => cases hl
  | cons b rest ih =>
      rw [List.map_cons, List.nodup_cons] at hn
      rw [seedLocal]
      by_cases hb : b.id = k
      · have hlb : l = b := by
          rcases List.mem_cons.mp hl with h1 | h1
          · exact h1
          · exfalso
            apply hn.1
            rw [hb, ← hk]
            exact List.mem_map_of_mem BillData.id h1
        subst hlb
        rw [mapGet_seedLocal_of_not_mem rest _ k
          (fun hmem => hn.1 (by rw [hb]; exact hmem))]
        rw [← hb]
        exact mapGet_mapSet_self m l.id l
      · have hlr : l ∈ rest := by
          rcases List.mem_cons.mp hl with h1 | h1
          · exact absurd (by rw [← h1]; exact hk) hb
          · exact h1
        exact ih _ hn.2 hlr

theorem mem_keys_seedLocal (localBills : List BillData) (m : MergeMap) (a : String) :
    a ∈ mapKeys (seedLocal m localBills) ↔
      a ∈ mapKeys m ∨ a ∈ localBills.map BillData.id := by
  induction localBills generalizing m with
  | nil => simp [seedLocal]
  | cons b rest ih =>
      rw [seedLocal, ih, mem_keys_mapSet, List.map_cons, List.mem_cons]
      tauto

theorem nodupKeys_seedLocal (localBills : List BillData) (m : MergeMap)
    (h : (mapKeys m).Nodup) : (mapKeys (seedLocal m localBills)).Nodup := by
  induction localBills generalizing m with
  | nil => exact h
  | cons b rest ih =>
      rw [seedLocal]
      exact ih _ (nodupKeys_mapSet m b.id b h)

theorem mapWF_seedLocal (localBills : List BillData) (m : MergeMap)
    (h : MapWF m) : MapWF (seedLocal m localBills) := by
  induction localBills generalizing m with
  | nil => exact h
  | cons b rest ih =>
      rw [seedLocal]
      exact ih _ (mapWF_mapSet m b h)

/-! ## Remote-merge lemmas (`remoteBills.forEach`) -/

theorem mergeStep_of_get_none (m : MergeMap) (r : BillData)
    (h : mapGet m r.id = none) : mergeStep m r = mapSet m r.id r := by
  unfold mergeStep
  rw [h]

theorem mergeStep_of_get_some (m : MergeMap) (r l : BillData)
    (h : mapGet m r.id = some l) :
    mergeStep m r = if l.updatedAt < r.updatedAt then mapSet m r.id r else m := by
  unfold mergeStep
  rw [h]

theorem mapGet_mergeStep_ne (m : MergeMap) (r : BillData) (k : String)
    (h : r.id ≠ k) : mapGet (mergeStep m r) k = mapGet m k := by
  have hne : k ≠ r.id := fun he => h he.symm
  cases hget : mapGet m r.id with
  | none =>
      rw [mergeStep_of_get_none m r hget]
      exact mapGet_mapSet_ne m r.id k r hne
  | some lcl =>
      rw [mergeStep_of_get_some m r lcl hget]
      by_cases hu : lcl.updatedAt < r.updatedAt
      · rw [if_pos hu]
        exact mapGet_mapSet_ne m r.id k r hne
      · rw [if_neg hu]

theorem mem_keys_mergeStep (m : MergeMap) (r : BillData) (a : String) :
    a ∈ mapKeys (mergeStep m r) ↔ a = r.id ∨ a ∈ mapKeys m := by
  cases hget : mapGet m r.id with
  | none =>
      rw [mergeStep_of_get_none m r hget]
      exact mem_keys_mapSet m r.id a r
  | some lcl =>
      have hmem : r.id ∈ mapKeys m := mem_keys_of_mapGet_eq_some m r.id lcl hget
      rw [mergeStep_of_get_some m r lcl hget]
      by_cases hu : lcl.updatedAt < r.updatedAt
      · rw [if_pos hu]
        exact mem_keys_mapSet m r.id a r
      · rw [if_neg hu]
        constructor
        · exact Or.inr
        · rintro (h1 | h1)
          · rw [h1]; exact hmem
          · exact h1

theorem nodupKeys_mergeStep (m : MergeMap) (r : BillData)
    (h : (mapKeys m).Nodup) : (mapKeys (mergeStep m r)).Nodup := by
  cases hget : mapGet m r.id with
  | none =>
      rw [mergeStep_of_get_none m r hget]
      exact nodupKeys_mapSet m r.id r h
  | some lcl =>
      rw [mergeStep_of_get_some m r lcl hget]
      by_cases hu : lcl.updatedAt < r.updatedAt
      · rw [if_pos hu]
        exact nodupKeys_mapSet m r.id r h
      · rw [if_neg hu]
        exact h

theorem mapWF_mergeStep (m : MergeMap) (r : BillData) (h : MapWF m) :
    MapWF (mergeStep m r) := by
  cases hget : mapGet m r.id with
  | none =>
      rw [mergeStep_of_get_none m r hget]
      exact mapWF_mapSet m r h
  | some lcl =>
      rw [mergeStep_of_get_some m r lcl hget]
      by_cases hu : lcl.updatedAt < r.updatedAt
      · rw [if_pos hu]
        exact mapWF_mapSet m r h
      · rw [if_neg hu]
        exact h

theorem mapGet_mergeRemote_of_not_mem (remoteBills : List BillData) (m : MergeMap)
    (k : String) (h : k ∉ remoteBills.map BillData.id) :
    mapGet (mergeRemote m remoteBills) k = mapGet m k := by
  induction remoteBills generalizing m with
  | nil => rfl
  | cons r rest ih =>
      rw [List.map_cons] at h
      have h1 : r.id ≠ k := fun he => h (by rw [← he]; exact List.mem_cons_self _ _)
      have h2 : k ∉ rest.map BillData.id := fun hmem => h (List.mem_cons_of_mem _ hmem)
      rw [mergeRemote, ih _ h2]
      exact mapGet_mergeStep_ne m r k h1

theorem mapGet_mergeRemote_of_mem (remoteBills : List BillData) (m : MergeMap)
    (k : String) (l r : BillData) (hn : (remoteBills.map BillData.id).Nodup)
    (hr : r ∈ remoteBills) (hk : r.id = k) (hm : mapGet m k = some l) :
    mapGet (mergeRemote m remoteBills) k =
      some (if l.updatedAt < r.updatedAt then r else l) := by
  induction remoteBills generalizing m with
  | nil => cases hr
  | cons b rest ih =>
      rw [List.map_cons, List.nodup_cons] at hn
      rw [mergeRemote]
      by_cases hb : b.id = k
      · have hrb : r = b := by
          rcases List.mem_cons.mp hr with h1 | h1
          · exact h1
          · exfalso
            apply hn.1
            rw [hb, ← hk]
            exact List.mem_map_of_mem BillData.id h1
        subst hrb
        rw [mapGet_mergeRemote_of_not_mem rest _ k
          (fun hmem => hn.1 (by rw [hb]; exact hmem))]
        rw [mergeStep_of_get_some m r l (by rw [hk]; exact hm)]
        by_cases hu : l.updatedAt < r.updatedAt
        · rw [if_pos hu, if_pos hu]
          rw [show (k : String) = r.id from hk.symm]
          exact mapGet_mapSet_self m r.id r
        · rw [if_neg hu, if_neg hu]
          exact hm
      · have hrr : r ∈ rest := by
          rcases List.mem_cons.mp hr with h1 | h1
          · exact absurd (by rw [← h1]; exact hk) hb
          · exact h1
        exact ih _ hn.2 hrr (by rw [mapGet_mergeStep_ne m b k hb]; exact hm)

theorem mem_keys_mergeRemote (remoteBills : List BillData) (m : MergeMap) (a : String) :
    a ∈ mapKeys (mergeRemote m remoteBills) ↔
      a ∈ mapKeys m ∨ a ∈ remoteBills.map BillData.id := by
  induction remoteBills generalizing m with
  | nil => simp [mergeRemote]
  | cons r rest ih =>
      rw [mergeRemote, ih, mem_keys_mergeStep, List.map_cons, List.mem_cons]
      tauto

theorem nodupKeys_mergeRemote (remoteBills : List BillData) (m : MergeMap)
    (h : (mapKeys m).Nodup) : (mapKeys (mergeRemote m remoteBills)).Nodup := by
  induction remoteBills generalizing m with
  | nil => exact h
  | cons r rest ih =>
      rw [mergeRemote]
      exact ih _ (nodupKeys_mergeStep m r h)

theorem mapWF_mergeRemote (remoteBills : List BillData) (m : MergeMap)
    (h : MapWF m) : MapWF (mergeRemote m remoteBills) := by
  induction remoteBills generalizing m with
  | nil => exact h
  | cons r rest ih =>
      rw [mergeRemote]
      exact ih _ (mapWF_mergeStep m r h)

/-! ## Sort lemmas -/

theorem perm_insertByCreated (b : BillData) (l : List BillData) :
    (insertByCreated b l).Perm (b :: l) := by
  induction l with
  | nil => exact List.Perm.refl _
  | cons x xs ih =>
      unfold insertByCreated
      by_cases h : x.createdAt < b.createdAt
      · rw [if_pos h]
      · rw [if_neg h]
        exact (ih.cons x).trans (List.Perm.swap b x xs)

theorem perm_sortByCreatedDesc (l : List BillData) :
    (sortByCreatedDesc l).Perm l := by
  induction l with
  | nil => exact List.Perm.refl _
  | cons x xs ih =>
      unfold sortByCreatedDesc
      rw [List.foldr_cons]
      exact (perm_insertByCreated x _).trans
        ((show List.foldr insertByCreated [] xs = sortByCreatedDesc xs from rfl) ▸ ih.cons x)

theorem mapValues_map_id_eq_keys (m : MergeMap) (hwf : MapWF m) :
    (mapValues m).map BillData.id = mapKeys m := by
  unfold mapValues mapKeys
  rw [List.map_map]
  exact List.map_congr_left (fun p hp => (hwf p hp).symm)

/-! ## Claim C1: merge determinism (last-writer-wins, local wins ties) -/

/-- Claim C1: when an id occurs in both the local and the remote
collection (each holding at most one record per id), the merged set of
`fullSync` holds the remote copy exactly when its `updatedAt` is
strictly greater than the local one's, and the local copy otherwise —
in particular on equal `updatedAt`. -/
theorem fullSync_merge_lww (localBills remoteBills : List BillData) (k : String)
    (l r : BillData)
    (hnl : (localBills.map BillData.id).Nodup)
    (hnr : (remoteBills.map BillData.id).Nodup)
    (hl : l ∈ localBills) (hlid : l.id = k) (hr : r ∈ remoteBills) (hrid : r.id = k) :
    (if l.updatedAt < r.updatedAt then r else l) ∈ fullSyncMerge localBills remoteBills ∧
      ∀ b ∈ fullSyncMerge localBills remoteBills, b.id = k →
        b = if l.updatedAt < r.updatedAt then r else l := by
  have hseed : mapGet (seedLocal [] localBills) k = some l :=
    mapGet_seedLocal_of_mem localBills [] k l hnl hl hlid
  have hget : mapGet (mergeRemote (seedLocal [] localBills) remoteBills) k =
      some (if l.updatedAt < r.updatedAt then r else l) :=
    mapGet_mergeRemote_of_mem remoteBills _ k l r hnr hr hrid hseed
  have hwf : MapWF (mergeRemote (seedLocal [] localBills) remoteBills) :=
    mapWF_mergeRemote remoteBills _ (mapWF_seedLocal localBills [] mapWF_nil)
  have hnd : (mapKeys (mergeRemote (seedLocal [] localBills) remoteBills)).Nodup :=
    nodupKeys_mergeRemote remoteBills _
      (nodupKeys_seedLocal localBills [] (by simp [mapKeys]))
  have hperm := perm_sortByCreatedDesc
    (mapValues (mergeRemote (seedLocal [] localBills) remoteBills))
  constructor
  · have hmem : ((k : String), if l.updatedAt < r.updatedAt then r else l) ∈
        mergeRemote (seedLocal [] localBills) remoteBills :=
      mem_of_mapGet_eq_some _ k _ hget
    have hval : (if l.updatedAt < r.updatedAt then r else l) ∈
        mapValues (mergeRemote (seedLocal [] localBills) remoteBills) :=
      (mem_mapValues _ _).mpr ⟨k, hmem⟩
    exact hperm.mem_iff.mpr hval
  · intro b hb hbk
    have hbv : b ∈ mapValues (mergeRemote (seedLocal [] localBills) remoteBills) :=
      hperm.mem_iff.mp hb
    obtain ⟨k1, hk1⟩ := (mem_mapValues _ _).mp hbv
    have hk1b : k1 = b.id := hwf _ hk1
    have hsome : mapGet (mergeRemote (seedLocal [] localBills) remoteBills) k = some b :=
      mapGet_eq_some_of_mem _ k b hnd (by
        have hkk : k1 = k := hk1b.trans hbk
        exact hkk ▸ hk1)
    exact Option.some.inj (hsome.symm.trans hget)

/-- Witness for C1: a concrete local record with `updatedAt = 100` and
a remote record with the same id and `updatedAt = 200`; the remote copy
is in the merged set. -/
theorem fullSync_merge_lww_witness :
    mkBill "1" "b" 20 200 ∈
      fullSyncMerge [mkBill "1" "a" 10 100] [mkBill "1" "b" 20 200] := by
  have h := fullSync_merge_lww [mkBill "1" "a" 10 100] [mkBill "1" "b" 20 200]
    "1" (mkBill "1" "a" 10 100) (mkBill "1" "b" 20 200)
    (by simp) (by simp) (by simp) rfl (by simp) rfl
  simpa [mkBill] using h.1

/-! ## Claim C10: the merged set keeps exactly the union of ids -/

/-- Claim C10: for any local and remote collections, the merged list a
successful `fullSync` writes back holds at most one record per id, and
its ids are exactly the union of the local and remote ids. -/
theorem fullSync_merge_ids (localBills remoteBills : List BillData) :
    ((fullSyncMerge localBills remoteBills).map BillData.id).Nodup ∧
      ∀ k : String,
        k ∈ (fullSyncMerge localBills remoteBills).map BillData.id ↔
          (k ∈ localBills.map BillData.id ∨ k ∈ remoteBills.map BillData.id) := by
  have hwf : MapWF (mergeRemote (seedLocal [] localBills) remoteBills) :=
    mapWF_mergeRemote remoteBills _ (mapWF_seedLocal localBills [] mapWF_nil)
  have hnd : (mapKeys (mergeRemote (seedLocal [] localBills) remoteBills)).Nodup :=
    nodupKeys_mergeRemote remoteBills _
      (nodupKeys_seedLocal localBills [] (by simp [mapKeys]))
  have hperm := (perm_sortByCreatedDesc
    (mapValues (mergeRemote (seedLocal [] localBills) remoteBills))).map BillData.id
  have hkeys := mapValues_map_id_eq_keys _ hwf
  constructor
  · exact ((hperm.nodup_iff).mpr (hkeys ▸ hnd))
  · intro k
    rw [show (fullSyncMerge localBills remoteBills).map BillData.id =
      (sortByCreatedDesc (mapValues (mergeRemote (seedLocal [] localBills)
        remoteBills))).map BillData.id from rfl]
    rw [hperm.mem_iff, hkeys, mem_keys_mergeRemote, mem_keys_seedLocal]
    simp [mapKeys]

/-! ## Claim C2: push condition of `fullSync` -/

/-- Claim C2: a record of the merged set is pushed (upserted) by
`fullSync` iff it has no remote counterpart with the same id, or its
`updatedAt` is strictly greater than that counterpart's; and in the
scenario of a local record with `updatedAt = 100` against a remote
record of the same id with `updatedAt = 200`, `fullSync` installs the
remote copy locally and pushes nothing. -/
theorem fullSync_push_spec :
    (∀ (store : Option (List BillData)) (remoteBills : List BillData) (writeOk : Bool)
        (bill : BillData),
        bill ∈ (fullSync true store (some remoteBills) writeOk).result →
        (bill ∈ (fullSync true store (some remoteBills) writeOk).pushed ↔
          remoteBills.find? (fun x => x.id = bill.id) = none ∨
            ∃ rc, remoteBills.find? (fun x => x.id = bill.id) = some rc ∧
              rc.updatedAt < bill.updatedAt)) ∧
      ∀ l r : BillData, r.id = l.id → l.updatedAt = 100 → r.updatedAt = 200 →
        fullSync true (some [l]) (some [r]) true = ⟨[r], some [r], []⟩ := by
  constructor
  · intro store remoteBills writeOk bill hmem
    have hres : (fullSync true store (some remoteBills) writeOk).result =
        fullSyncMerge (getStoredBills store) remoteBills := by
      simp [fullSync]
    have hpush : (fullSync true store (some remoteBills) writeOk).pushed =
        pushedBills (fullSyncMerge (getStoredBills store) remoteBills) remoteBills := by
      simp [fullSync]
    rw [hres] at hmem
    rw [hpush]
    unfold pushedBills
    rw [List.mem_filter]
    unfold pushCondition
    cases hfind : remoteBills.find? (fun x => x.id = bill.id) with
    | none => simp [hfind, hmem]
    | some rc => simp [hfind, hmem]
  · intro l r hid h100 h200
    have hcond : l.updatedAt < r.updatedAt := by rw [h100, h200]; norm_num
    have hncond : ¬ r.updatedAt < r.updatedAt := lt_irrefl _
    simp [fullSync, getStoredBills, fullSyncMerge, seedLocal, mergeRemote, mergeStep,
      mapGet, mapSet, mapValues, sortByCreatedDesc, insertByCreated,
      saveBillsToStorage, pushedBills, pushCondition, hid, hcond, hncond]

/-- Witness for C2: at the concrete scenario records, `fullSync`
returns the remote copy, stores it locally, and pushes nothing. -/
theorem fullSync_push_spec_witness :
    fullSync true (some [mkBill "1" "a" 0 100]) (some [mkBill "1" "b" 0 200]) true =
      ⟨[mkBill "1" "b" 0 200], some [mkBill "1" "b" 0 200], []⟩ :=
  fullSync_push_spec.2 (mkBill "1" "a" 0 100) (mkBill "1" "b" 0 200) rfl rfl rfl

/-! ## Claim C5: duplicate-detection normalization -/

/-- Claim C5: a candidate whose normalized invoice number is empty
never matches; `"  INV-001 "` matches a record whose `invoiceNo` is
`"inv-001"`; and the first matching record in store order is the one
reported. -/
theorem findDuplicate_spec :
    (∀ (c : String) (bills : List BillData),
        normalizeInvoice c = "" → findDuplicate c bills = none) ∧
      (∀ b : BillData, b.invoiceNo = "inv-001" →
        findDuplicate "  INV-001 " [b] = some b) ∧
      ∀ (c : String) (pre post : List BillData) (b : BillData),
        normalizeInvoice c ≠ "" →
        invoiceMatches (normalizeInvoice c) b = true →
        (∀ x ∈ pre, invoiceMatches (normalizeInvoice c) x = false) →
        findDuplicate c (pre ++ b :: post) = some b := by
  refine ⟨?_, ?_, ?_⟩
  · intro c bills h
    by_cases hc : c = ""
    · simp [findDuplicate, hc]
    · simp [findDuplicate, hc, h]
  · intro b hb
    have h1 : normalizeInvoice "  INV-001 " = "inv-001" := by decide
    have h2 : invoiceMatches "inv-001" b = true := by
      simp [invoiceMatches, hb]
      decide
    simp [findDuplicate, h1, List.find?_cons, h2]
  · intro c pre post b hnorm hmatch hpre
    have hc : c ≠ "" := by
      intro he
      apply hnorm
      rw [he]
      decide
    rw [findDuplicate]
    rw [if_neg hc, if_neg hnorm]
    induction pre with
    | nil => simp [List.find?_cons, hmatch]
    | cons x xs ih =>
        have hx : invoiceMatches (normalizeInvoice c) x = false :=
          hpre x (List.mem_cons_self _ _)
        rw [List.cons_append, List.find?_cons, hx]
        exact ih (fun y hy => hpre y (List.mem_cons_of_mem _ hy))

/-- Witness for C5: the empty and whitespace-only candidates match
nothing, and the normalization example matches a concrete record. -/
theorem findDuplicate_spec_witness :
    findDuplicate " \t " [mkBill "1" "inv-001" 0 0] = none ∧
      findDuplicate "  INV-001 " [mkBill "1" "inv-001" 0 0] =
        some (mkBill "1" "inv-001" 0 0) := by
  constructor
  · exact findDuplicate_spec.1 " \t " [mkBill "1" "inv-001" 0 0] (by decide)
  · exact findDuplicate_spec.2.1 (mkBill "1" "inv-001" 0 0) rfl

/-! ## Claims C6 and C8: batch mutators -/

/-- Pairs of a zip of a list with its image under a map: the second
component is the image of the first. -/
theorem mem_zip_map {α : Type} (l : List α) (f : α → α) (x y : α)
    (h : (x, y) ∈ List.zip l (l.map f)) : x ∈ l ∧ y = f x := by
  induction l with
  | nil => cases h
  | cons a as ih =>
      rw [List.map_cons, List.zip_cons_cons] at h
      rcases List.mem_cons.mp h with h1 | h1
      · have hx : x = a := congrArg Prod.fst h1
        have hy : y = f a := congrArg Prod.snd h1
        exact ⟨by rw [hx]; exact List.mem_cons_self _ _, by rw [hy, hx]⟩
      · obtain ⟨hmem, hy⟩ := ih h1
        exact ⟨List.mem_cons_of_mem _ hmem, hy⟩

/-- Claim C6: after a bulk pack, every targeted record is `PACKED` with
`packedAt` and `updatedAt` both equal to the single batch timestamp
(and keeps its id), while untargeted records are unchanged.  `(b, b2)`
ranges over corresponding before/after positions. -/
theorem handlePackSelected_spec (bills : List BillData) (sel : List String)
    (now : Nat) (b b2 : BillData)
    (hmem : (b, b2) ∈ List.zip bills (handlePackSelected bills sel now)) :
    (sel.contains b.id = true →
      b2.status = PackingStatus.PACKED ∧ b2.packedAt = some now ∧
        b2.updatedAt = now ∧ b2.id = b.id) ∧
      (sel.contains b.id = false → b2 = b) := by
  unfold handlePackSelected at hmem
  obtain ⟨_, heq⟩ := mem_zip_map bills _ b b2 hmem
  constructor
  · intro hsel
    rw [heq, if_pos hsel]
    exact ⟨rfl, rfl, rfl, rfl⟩
  · intro hsel
    rw [heq, if_neg (by rw [hsel]; exact Bool.false_ne_true)]

/-- Witness for C6: packing a concrete two-record store where only the
first record is targeted. -/
theorem handlePackSelected_spec_witness :
    (((handlePackSelected [mkBill "1" "x" 0 50, mkBill "2" "y" 0 60] ["1"] 100).headD
        (mkBill "1" "x" 0 50)).status = PackingStatus.PACKED ∧
      ((handlePackSelected [mkBill "1" "x" 0 50, mkBill "2" "y" 0 60] ["1"] 100).headD
        (mkBill "1" "x" 0 50)).packedAt = some 100 ∧
      ((handlePackSelected [mkBill "1" "x" 0 50, mkBill "2" "y" 0 60] ["1"] 100).headD
        (mkBill "1" "x" 0 50)).updatedAt = 100 ∧
      ((handlePackSelected [mkBill "1" "x" 0 50, mkBill "2" "y" 0 60] ["1"] 100).headD
        (mkBill "1" "x" 0 50)).id = "1") ∧
      ((handlePackSelected [mkBill "1" "x" 0 50, mkBill "2" "y" 0 60] ["1"] 100).getD 1
        (mkBill "2" "y" 0 60)) = mkBill "2" "y" 0 60 := by
  constructor
  · exact (handlePackSelected_spec [mkBill "1" "x" 0 50, mkBill "2" "y" 0 60] ["1"] 100
      (mkBill "1" "x" 0 50)
      ((handlePackSelected [mkBill "1" "x" 0 50, mkBill "2" "y" 0 60] ["1"] 100).headD
        (mkBill "1" "x" 0 50)) (by decide)).1 (by decide)
  · exact (handlePackSelected_spec [mkBill "1" "x" 0 50, mkBill "2" "y" 0 60] ["1"] 100
      (mkBill "2" "y" 0 60)
      ((handlePackSelected [mkBill "1" "x" 0 50, mkBill "2" "y" 0 60] ["1"] 100).getD 1
        (mkBill "2" "y" 0 60)) (by decide)).2 (by decide)

/-- Counterexample to claim C8 as stated: a record with
`updatedAt = 100` mutated by a group-edit whose batch clock reading is
also `100` (two events inside the same millisecond) keeps
`updatedAt = 100`, which is not strictly greater than before. -/
theorem updatedAt_not_strictly_increasing :
    ¬ ((mkBill "1" "x" 0 100).updatedAt <
        ((applyGroupSettings [mkBill "1" "x" 0 100] ["1"] "grp" "" 100).headD
          (mkBill "1" "x" 0 100)).updatedAt) := by decide

/-- Claim C8 (amended): every mutation of an existing record — a field
edit through the bill card's `handleChange`, a group-edit, or a bulk
pack — sets the record's `updatedAt` to the mutation's clock reading
`now`; it is strictly greater than the previous `updatedAt` provided
the clock reading exceeds it (the code does not enforce this when two
writes share a millisecond). -/
theorem mutation_updatedAt_amended (bills : List BillData) (sel : List String)
    (gname gcolor : String) (now : Nat) (b bg bp : BillData) (e : FieldEdit)
    (hg : (b, bg) ∈ List.zip bills (applyGroupSettings bills sel gname gcolor now))
    (hp : (b, bp) ∈ List.zip bills (handlePackSelected bills sel now))
    (hsel : sel.contains b.id = true) :
    (handleChange b e now).updatedAt = now ∧ bg.updatedAt = now ∧ bp.updatedAt = now ∧
      (b.updatedAt < now →
        b.updatedAt < (handleChange b e now).updatedAt ∧
          b.updatedAt < bg.updatedAt ∧ b.updatedAt < bp.updatedAt) := by
  unfold applyGroupSettings at hg
  unfold handlePackSelected at hp
  obtain ⟨_, heqg⟩ := mem_zip_map bills _ b bg hg
  obtain ⟨_, heqp⟩ := mem_zip_map bills _ b bp hp
  rw [heqg, if_pos hsel, heqp, if_pos hsel]
  exact ⟨rfl, rfl, rfl, fun h => ⟨h, h, h⟩⟩

/-- Witness for C8 (amended): a concrete record with `updatedAt = 50`
mutated at clock reading `100` ends at `updatedAt = 100 > 50` under a
field edit, a group-edit and a bulk pack. -/
theorem mutation_updatedAt_amended_witness :
    (handleChange (mkBill "1" "x" 0 50) (FieldEdit.customerName "z") 100).updatedAt
        = 100 ∧
      ((applyGroupSettings [mkBill "1" "x" 0 50] ["1"] "grp" "" 100).headD
        (mkBill "1" "x" 0 50)).updatedAt = 100 ∧
      ((handlePackSelected [mkBill "1" "x" 0 50] ["1"] 100).headD
        (mkBill "1" "x" 0 50)).updatedAt = 100 := by
  have h := mutation_updatedAt_amended [mkBill "1" "x" 0 50] ["1"] "grp" "" 100
    (mkBill "1" "x" 0 50)
    ((applyGroupSettings [mkBill "1" "x" 0 50] ["1"] "grp" "" 100).headD
      (mkBill "1" "x" 0 50))
    ((handlePackSelected [mkBill "1" "x" 0 50] ["1"] 100).headD
      (mkBill "1" "x" 0 50))
    (FieldEdit.customerName "z")
    (by decide) (by decide) (by decide)
  exact ⟨h.1, h.2.1, h.2.2.1⟩

end GracePacking
